import Mathlib

/-!
Verification development for the DuTop disk-usage analysis core
(`src/lib.rs`).  Paths are modelled as lists of components
(`List String`); `u64`/`usize` values are modelled as `Nat` (the sizes
and counts involved never approach the wrap-around range, and no claim
under study concerns overflow).  The behaviour of the external crates
`glob` (pattern compilation and matching) and `walkdir` (depth-first
traversal with `filter_entry` pruning and `max_depth`) is embedded
following their documented semantics, since `analyze_disk_usage`'s
observable behaviour depends on them.
-/

/-- File metadata relevant to the analysis: device id, inode number and
allocated 512-byte block count (`std::fs::Metadata` on unix). -/
structure Metadata where
  dev : Nat
  ino : Nat
  blocks : Nat
deriving DecidableEq, Repr

/-- Embeds `get_inode_key` (unix): the pair `(metadata.dev(), metadata.ino())`. -/
def get_inode_key (m : Metadata) : Nat × Nat :=
  (m.dev, m.ino)

/-- Embeds `get_disk_usage` (unix): `metadata.blocks() * 512`. -/
def get_disk_usage (m : Metadata) : Nat :=
  m.blocks * 512

/-- Token of a compiled glob pattern.  Models the external `glob` crate:
literal characters, `?`, `*`, and `[...]` / `[!...]` character classes
(ranges inside a class are modelled as plain characters; no claim under
study depends on class internals). -/
inductive GlobTok where
  | lit (c : Char)
  | anyChar
  | anySeq
  | charClass (neg : Bool) (cs : List Char)
deriving DecidableEq, Repr

/-- Parses the body of a character class up to the closing `]`;
returns the class characters and the remaining input, or `none` when
the class is unterminated (invalid pattern syntax). -/
def parseClassBody : List Char → Option (List Char × List Char)
  | [] => none
  | c :: rest =>
    if c = ']' then some ([], rest)
    else
      match parseClassBody rest with
      | some (cs, rest2) => some (c :: cs, rest2)
      | none => none

/-- Compiles one glob pattern string into tokens, driven by a character
budget so that the recursion is structural; `none` means invalid syntax
(`glob::Pattern::new` returning `Err`).  A budget of at least the input
length never runs out, since each step consumes at least one character. -/
def parseGlobF : Nat → List Char → Option (List GlobTok)
  | _, [] => some []
  | 0, _ :: _ => none
  | fuel + 1, c :: rest =>
    if c = '*' then (parseGlobF fuel rest).map (fun ts => GlobTok.anySeq :: ts)
    else if c = '?' then (parseGlobF fuel rest).map (fun ts => GlobTok.anyChar :: ts)
    else if c = '[' then
      match parseClassBody rest with
      | some (cs, rest2) =>
        let tok :=
          match cs with
          | '!' :: cs1 => GlobTok.charClass true cs1
          | _ => GlobTok.charClass false cs
        (parseGlobF fuel rest2).map (fun ts => tok :: ts)
      | none => none
    else (parseGlobF fuel rest).map (fun ts => GlobTok.lit c :: ts)

/-- Compiles one glob pattern string into tokens. -/
def parseGlob (l : List Char) : Option (List GlobTok) :=
  parseGlobF l.length l

/-- Matching of a compiled glob pattern against a character list
(`glob::Pattern::matches`): `*` matches when the rest of the pattern
matches some suffix of the input. -/
def globMatch : List GlobTok → List Char → Bool
  | [], s => s.isEmpty
  | GlobTok.lit c :: ts, s =>
    match s with
    | [] => false
    | d :: ds => decide (c = d) && globMatch ts ds
  | GlobTok.anyChar :: ts, s =>
    match s with
    | [] => false
    | _ :: ds => globMatch ts ds
  | GlobTok.charClass neg cs :: ts, s =>
    match s with
    | [] => false
    | d :: ds => (cs.contains d != neg) && globMatch ts ds
  | GlobTok.anySeq :: ts, s => s.tails.any (fun t => globMatch ts t)

/-- A compiled exclusion pattern (`glob::Pattern`). -/
def Pattern : Type :=
  List GlobTok

instance : DecidableEq Pattern := by
  unfold Pattern
  infer_instance

/-- Embeds `glob::Pattern::new`: `none` on invalid syntax. -/
def Pattern.new (s : String) : Option Pattern :=
  parseGlob s.data

/-- Embeds `glob::Pattern::matches`. -/
def Pattern.matches (p : Pattern) (s : String) : Bool :=
  globMatch p s.data

/-- Embeds `Path::file_name` followed by `unwrap_or("")`: the final
path component, or the empty string for an empty path. -/
def fileNameOf (p : List String) : String :=
  (p.getLast?).getD ""

/-- Embeds `is_excluded` (src/lib.rs:305-314): with no patterns the
answer is `false`; otherwise the final path component is tested against
each pattern. -/
def is_excluded (path : List String) (exclusions : List Pattern) : Bool :=
  if exclusions.isEmpty then false
  else exclusions.any (fun pat => pat.matches (fileNameOf path))

/-- Embeds `find_immediate_subdir` (src/lib.rs:278-294): strip the root
from the path; if a first component remains, the bucket is
`root.join(first)`; if the path is the root itself, the bucket is the
root; if the path is not under the root, the bucket is the path. -/
def find_immediate_subdir (path root : List String) : List String :=
  if root.isPrefixOf path then
    match path.drop root.length with
    | [] => root
    | first :: _ => root ++ [first]
  else path

mutual
/-- A node of the filesystem tree being analysed.  A `file` carries the
result of reading its metadata (`none` models a failing metadata read);
a `dir` carries a readability flag (`false` models a directory whose
contents cannot be listed, which `walkdir` reports as an `Err` item). -/
inductive FSTree where
  | file (name : String) (meta : Option Metadata)
  | dir (name : String) (readable : Bool) (children : FSForest)

/-- The ordered children of a directory; the list order models the
order in which the walker discovers them (`readdir` order, which the
operating system does not specify). -/
inductive FSForest where
  | nil
  | cons (t : FSTree) (ts : FSForest)
end

/-- Builds a forest from a list of trees. -/
def FSForest.ofList : List FSTree → FSForest
  | [] => FSForest.nil
  | t :: ts => FSForest.cons t (FSForest.ofList ts)

/-- Final name component of a tree node. -/
def FSTree.name : FSTree → String
  | .file n _ => n
  | .dir n _ _ => n

/-- Embeds `Path::is_dir` for the root-path precondition check. -/
def FSTree.isDir : FSTree → Bool
  | .file _ _ => false
  | .dir _ _ _ => true

/-- A directory entry delivered by the walker (`walkdir::DirEntry`):
its full path and, for files, the metadata-read result. -/
inductive Entry where
  | fileE (path : List String) (meta : Option Metadata)
  | dirE (path : List String)
deriving DecidableEq, Repr

/-- Path of a walker entry. -/
def Entry.path : Entry → List String
  | .fileE p _ => p
  | .dirE p => p

/-- One item of the walker's stream: `Except.error ()` models a
`walkdir` error item (inaccessible path), `Except.ok` a delivered
entry, mirroring `Result<DirEntry>` in the `for entry in walker` loop. -/
abbrev WalkItem : Type :=
  Except Unit Entry

mutual
/-- Embeds the `WalkDir` traversal of src/lib.rs:111-115: depth-first,
the directory itself before its contents, `max_depth` limiting descent
(depth 0 is the root, which is always yielded unless filtered), and
`filter_entry (!is_excluded)` pruning, which applies to every entry
including the root and skips an excluded directory's whole subtree. -/
def walkTree (pats : List Pattern) (maxD : Nat) : FSTree → List String → Nat → List WalkItem
  | FSTree.file _ m, path, _ =>
    if is_excluded path pats then [] else [Except.ok (Entry.fileE path m)]
  | FSTree.dir _ readable cs, path, d =>
    if is_excluded path pats then []
    else
      Except.ok (Entry.dirE path) ::
        (if d < maxD then
          (if readable then walkForest pats maxD cs path d else [Except.error ()])
        else [])

/-- Walks the children of a directory at depth `d`, left to right. -/
def walkForest (pats : List Pattern) (maxD : Nat) : FSForest → List String → Nat → List WalkItem
  | FSForest.nil, _, _ => []
  | FSForest.cons c cs, path, d =>
    walkTree pats maxD c (path ++ [c.name]) (d + 1) ++ walkForest pats maxD cs path d
end

/-- Embeds `DirectoryStats` (src/lib.rs:174-179). -/
structure DirectoryStats where
  size : Nat
  file_count : Nat
  dir_count : Nat
deriving DecidableEq, Repr

/-- The `Default` instance of `DirectoryStats`. -/
def DirectoryStats.init : DirectoryStats :=
  ⟨0, 0, 0⟩

/-- Embeds `DirectoryEntry` (src/lib.rs:40-50). -/
structure DirectoryEntry where
  path : List String
  size : Nat
  file_count : Nat
  dir_count : Nat
deriving DecidableEq, Repr

/-- The mutable state threaded through the walk loop of
`analyze_disk_usage`: the `dir_sizes` map (modelled as an association
list in first-insertion order), the global counters and the seen-inode
set (modelled as a duplicate-free insertion-ordered list). -/
structure AnalysisState where
  dir_sizes : List (List String × DirectoryStats)
  total_files : Nat
  total_dirs : Nat
  seen_inodes : List (Nat × Nat)
  error_count : Nat
deriving DecidableEq, Repr

/-- The state before the walk starts. -/
def initState : AnalysisState :=
  ⟨[], 0, 0, [], 0⟩

/-- Embeds `dir_sizes.entry(key).or_default()` followed by a mutation
`f` of the bucket: update the existing bucket in place, or append a
fresh default bucket mutated by `f`. -/
def bucketUpdate (m : List (List String × DirectoryStats)) (key : List String)
    (f : DirectoryStats → DirectoryStats) : List (List String × DirectoryStats) :=
  match m with
  | [] => [(key, f DirectoryStats.init)]
  | kv :: rest =>
    if kv.1 = key then (kv.1, f kv.2) :: rest
    else kv :: bucketUpdate rest key f

/-- Kinds of per-entry failure inside `process_entry`; reading the
file's metadata is the only fallible step (src/lib.rs:193-194). -/
inductive EntryError where
  | metadataFailed
deriving DecidableEq, Repr

/-- Embeds `process_entry` (src/lib.rs:182-225).  Returns the error
(if any) together with the state after the call; in the source the
state is mutated through `&mut` references and the sole failure point
precedes every mutation. -/
def process_entry (root_path : List String) (e : Entry) (s : AnalysisState) :
    Option EntryError × AnalysisState :=
  match e with
  | Entry.fileE path metaOpt =>
    match metaOpt with
    | none => (some EntryError.metadataFailed, s)
    | some m =>
      let inode_key := get_inode_key m
      if inode_key ∈ s.seen_inodes then
        (none, s)
      else
        let size := get_disk_usage m
        let subdir := find_immediate_subdir path root_path
        (none,
          { s with
            seen_inodes := s.seen_inodes ++ [inode_key]
            total_files := s.total_files + 1
            dir_sizes := bucketUpdate s.dir_sizes subdir
              (fun st => { st with size := st.size + size, file_count := st.file_count + 1 }) })
  | Entry.dirE path =>
    if path ≠ root_path then
      let subdir := find_immediate_subdir path root_path
      (none,
        { s with
          total_dirs := s.total_dirs + 1
          dir_sizes := bucketUpdate s.dir_sizes subdir
            (fun st => { st with dir_count := st.dir_count + 1 }) })
    else
      (none, s)

/-- One iteration of the walk loop (src/lib.rs:115-132): an `Ok` entry
goes through `process_entry` and a returned error only bumps
`error_count`; a walker `Err` item only bumps `error_count`. -/
def stepEvent (root_path : List String) (s : AnalysisState) (ev : WalkItem) : AnalysisState :=
  match ev with
  | Except.ok e =>
    match process_entry root_path e s with
    | (some _, s2) => { s2 with error_count := s2.error_count + 1 }
    | (none, s2) => s2
  | Except.error _ => { s with error_count := s.error_count + 1 }

/-- Runs the walk loop over a stream of walker items. -/
def runEvents (root_path : List String) (evs : List WalkItem) : AnalysisState :=
  evs.foldl (stepEvent root_path) initState

/-- The state at the end of the walk of tree `t`. -/
def analysisState (t : FSTree) (root_path : List String) (pats : List Pattern)
    (maxD : Nat) : AnalysisState :=
  runEvents root_path (walkTree pats maxD t root_path 0)

/-- Sum of the `size` fields over a bucket map. -/
def sumSizes (m : List (List String × DirectoryStats)) : Nat :=
  (m.map (fun kv => kv.2.size)).sum

/-- Sum of the `file_count` fields over a bucket map. -/
def sumFileCounts (m : List (List String × DirectoryStats)) : Nat :=
  (m.map (fun kv => kv.2.file_count)).sum

/-- Embeds line 139: `dir_sizes.values().map(|s| s.size).sum()`,
computed over all buckets before any truncation. -/
def total_size_of (s : AnalysisState) : Nat :=
  sumSizes s.dir_sizes

/-- Embeds lines 142-150: the bucket map converted to
`DirectoryEntry` values.  The source iterates a `HashMap`, whose
enumeration order is unspecified and varies from run to run (random
per-instance seed); the model enumerates in first-insertion order as
one canonical choice.  Conclusions that are sensitive to this order
(the relative order of equal-sized buckets after the stable sort) are
therefore never asserted to be run-to-run stable; the theorems about
totals are proved invariant under permutation of this enumeration. -/
def directoriesOf (s : AnalysisState) : List DirectoryEntry :=
  s.dir_sizes.map (fun kv => ⟨kv.1, kv.2.size, kv.2.file_count, kv.2.dir_count⟩)

/-- The ordering used at line 152: `a` may precede `b` exactly when
`b.size.cmp(&a.size)` is not `Greater`, i.e. descending by size. -/
def sizeDescRel (a b : DirectoryEntry) : Prop :=
  b.size ≤ a.size

instance : DecidableRel sizeDescRel :=
  fun a b => inferInstanceAs (Decidable (b.size ≤ a.size))

instance : IsTotal DirectoryEntry sizeDescRel :=
  ⟨fun a b => Nat.le_total b.size a.size⟩

instance : IsTrans DirectoryEntry sizeDescRel :=
  ⟨fun _ _ _ h1 h2 => Nat.le_trans h2 h1⟩

/-- Embeds line 152: `directories.sort_by(|a, b| b.size.cmp(&a.size))`.
Rust's `sort_by` is a stable sort; a stable sort's output is uniquely
determined by the comparator and the input order, so the stable
`insertionSort` denotes the same function. -/
def sortDirectories (l : List DirectoryEntry) : List DirectoryEntry :=
  l.insertionSort sizeDescRel

/-- Embeds `AnalysisConfig` (src/lib.rs:16-26).  `follow_links` is kept
for fidelity; the tree model contains no symbolic links, so it does not
influence the embedded walk. -/
structure AnalysisConfig where
  max_depth : Option Nat
  exclude_patterns : List String
  follow_links : Bool
  num_threads : Option Nat

/-- Embeds `AnalysisResult` (src/lib.rs:53-65). -/
structure AnalysisResult where
  root_path : List String
  total_size : Nat
  total_files : Nat
  total_dirs : Nat
  top_directories : List DirectoryEntry
deriving DecidableEq, Repr

/-- Errors surfaced by `analyze_disk_usage` before the walk begins. -/
inductive AnalysisError where
  | pathDoesNotExist
  | notADirectory
  | threadPoolConfig
  | invalidPattern (p : String)
deriving DecidableEq, Repr

instance {ε α : Type} [DecidableEq ε] [DecidableEq α] : DecidableEq (Except ε α) :=
  fun a b =>
    match a, b with
    | Except.ok x, Except.ok y => decidable_of_iff (x = y) (by simp)
    | Except.error x, Except.error y => decidable_of_iff (x = y) (by simp)
    | Except.ok _, Except.error _ => isFalse (by simp)
    | Except.error _, Except.ok _ => isFalse (by simp)

/-- Embeds `build_exclusion_matcher` (src/lib.rs:297-302): compiles
every pattern, failing on the first invalid one. -/
def build_exclusion_matcher : List String → Except AnalysisError (List Pattern)
  | [] => Except.ok []
  | p :: ps =>
    match Pattern.new p with
    | none => Except.error (AnalysisError.invalidPattern p)
    | some pat => (build_exclusion_matcher ps).map (fun rest => pat :: rest)

/-- Embeds `analyze_disk_usage` (src/lib.rs:76-171).  `fs` is what the
root path resolves to on disk (`none`: the path does not exist);
`poolFails` is the environment fact of whether
`rayon::ThreadPoolBuilder::build_global` would fail (it is only
consulted when `num_threads` is set, as in the source).  Precondition
checks appear in source order; then the tree is walked, totals are
computed over all buckets, and the sorted bucket list is truncated to
`top_n`. -/
def analyze_disk_usage (fs : Option FSTree) (root_path : List String)
    (config : AnalysisConfig) (top_n : Nat) (poolFails : Bool) :
    Except AnalysisError AnalysisResult :=
  match fs with
  | none => Except.error AnalysisError.pathDoesNotExist
  | some t =>
    if !t.isDir then Except.error AnalysisError.notADirectory
    else if config.num_threads.isSome && poolFails then
      Except.error AnalysisError.threadPoolConfig
    else
      match build_exclusion_matcher config.exclude_patterns with
      | Except.error e => Except.error e
      | Except.ok exclusions =>
        let maxD := config.max_depth.getD (2 ^ 64 - 1)
        let s := analysisState t root_path exclusions maxD
        let directories := sortDirectories (directoriesOf s)
        Except.ok
          { root_path := root_path
            total_size := total_size_of s
            total_files := s.total_files
            total_dirs := s.total_dirs
            top_directories := directories.take top_n }

/-- The analysis result produced in the non-error case, expressed
through the walk state; used to state invariants about `analyze_disk_usage`. -/
def resultOf (t : FSTree) (root_path : List String) (pats : List Pattern)
    (maxD top_n : Nat) : AnalysisResult :=
  { root_path := root_path
    total_size := total_size_of (analysisState t root_path pats maxD)
    total_files := (analysisState t root_path pats maxD).total_files
    total_dirs := (analysisState t root_path pats maxD).total_dirs
    top_directories :=
      (sortDirectories (directoriesOf (analysisState t root_path pats maxD))).take top_n }

/-- Top-directory list of an analysis outcome (empty on error); used to
state concrete facts about returned rankings. -/
def topOf : Except AnalysisError AnalysisResult → List DirectoryEntry
  | Except.ok r => r.top_directories
  | Except.error _ => []

/-- The identity key of a walker item, when the item is a delivered
file whose metadata was readable. -/
def itemKey : WalkItem → Option (Nat × Nat)
  | Except.ok (Entry.fileE _ (some m)) => some (get_inode_key m)
  | _ => none

/-- Identity key and disk usage of a delivered readable file item. -/
def itemKeySize : WalkItem → Option ((Nat × Nat) × Nat)
  | Except.ok (Entry.fileE _ (some m)) => some (get_inode_key m, get_disk_usage m)
  | _ => none

/-- Identity keys of all readable file items of a walk, in walk order
(one occurrence per hard-link path). -/
def fileKeys (evs : List WalkItem) : List (Nat × Nat) :=
  evs.filterMap itemKey

/-- Identity keys paired with disk usage for all readable file items. -/
def fileKeySizes (evs : List WalkItem) : List ((Nat × Nat) × Nat) :=
  evs.filterMap itemKeySize

/-- Whether a walker item is a delivered directory other than the root
(the ones that increment `total_dirs`). -/
def isDirItem (root_path : List String) : WalkItem → Bool
  | Except.ok (Entry.dirE p) => decide (p ≠ root_path)
  | _ => false

/-- Whether a walker item increments `error_count`: a walker error, or
a file whose metadata read fails inside `process_entry`. -/
def isErrItem : WalkItem → Bool
  | Except.error _ => true
  | Except.ok (Entry.fileE _ none) => true
  | _ => false

/-- First occurrences of keys in `ks` that are not already in `seen`,
in order of first appearance (how the seen-inode set grows). -/
def newKeys (seen : List (Nat × Nat)) : List (Nat × Nat) → List (Nat × Nat)
  | [] => []
  | k :: ks => if k ∈ seen then newKeys seen ks else k :: newKeys (seen ++ [k]) ks

/-- Total disk usage of the first occurrence of each not-yet-seen key
in a key-size list (what the deduplicated accumulation adds up). -/
def firstSizes (seen : List (Nat × Nat)) : List ((Nat × Nat) × Nat) → Nat
  | [] => 0
  | p :: rest => if p.1 ∈ seen then firstSizes seen rest else p.2 + firstSizes (seen ++ [p.1]) rest

theorem sum_g_bucketUpdate (g : DirectoryStats → Nat) (f : DirectoryStats → DirectoryStats)
    (c : Nat) (hg : g DirectoryStats.init = 0) (hf : ∀ st, g (f st) = g st + c) :
    ∀ (m : List (List String × DirectoryStats)) (key : List String),
      ((bucketUpdate m key f).map (fun kv => g kv.2)).sum
        = (m.map (fun kv => g kv.2)).sum + c := by
  intro m
  induction m with
  | nil => intro key; simp [bucketUpdate, hf, hg]
  | cons kv rest ih =>
    intro key
    by_cases hk : kv.1 = key
    · simp [bucketUpdate, hk, hf]
      omega
    · simp [bucketUpdate, hk, ih]
      omega

theorem mem_newKeys : ∀ (ks seen : List (Nat × Nat)) (x : Nat × Nat),
    x ∈ newKeys seen ks ↔ x ∈ ks ∧ x ∉ seen := by
  intro ks
  induction ks with
  | nil => intro seen x; simp [newKeys]
  | cons k ks ih =>
    intro seen x
    by_cases hk : k ∈ seen
    · simp only [newKeys, if_pos hk, ih]
      constructor
      · rintro ⟨hx, hns⟩; exact ⟨List.mem_cons_of_mem _ hx, hns⟩
      · rintro ⟨hx, hns⟩
        rcases List.mem_cons.mp hx with rfl | hx
        · exact absurd hk hns
        · exact ⟨hx, hns⟩
    · simp only [newKeys, if_neg hk]
      constructor
      · intro hx
        rcases List.mem_cons.mp hx with rfl | hx
        · exact ⟨List.mem_cons_self _ _, hk⟩
        · rcases (ih _ _).mp hx with ⟨h1, h2⟩
          refine ⟨List.mem_cons_of_mem _ h1, fun hs => h2 ?_⟩
          simp [hs]
      · rintro ⟨hx, hns⟩
        rcases List.mem_cons.mp hx with rfl | hx
        · exact List.mem_cons_self _ _
        · by_cases hxk : x = k
          · subst hxk; exact List.mem_cons_self _ _
          · refine List.mem_cons_of_mem _ ((ih _ _).mpr ⟨hx, ?_⟩)
            simp [hns, hxk]

theorem nodup_newKeys : ∀ (ks seen : List (Nat × Nat)), (newKeys seen ks).Nodup := by
  intro ks
  induction ks with
  | nil => intro seen; simp [newKeys]
  | cons k ks ih =>
    intro seen
    by_cases hk : k ∈ seen
    · simp only [newKeys, if_pos hk]; exact ih seen
    · simp only [newKeys, if_neg hk]
      refine List.nodup_cons.mpr ⟨fun hmem => ?_, ih _⟩
      rcases (mem_newKeys _ _ _).mp hmem with ⟨_, h2⟩
      exact h2 (by simp)

theorem length_newKeys_nil (ks : List (Nat × Nat)) :
    (newKeys [] ks).length = ks.toFinset.card := by
  have hnd : (newKeys [] ks).Nodup := nodup_newKeys ks []
  have hset : (newKeys [] ks).toFinset = ks.toFinset := by
    ext x
    simp [List.mem_toFinset, mem_newKeys]
  rw [← List.toFinset_card_of_nodup hnd, hset]

theorem stepEvent_error (root_path : List String) (s : AnalysisState) (u : Unit) :
    stepEvent root_path s (Except.error u) = { s with error_count := s.error_count + 1 } := rfl

theorem stepEvent_file_meta_failed (root_path : List String) (s : AnalysisState) (p : List String) :
    stepEvent root_path s (Except.ok (Entry.fileE p none))
      = { s with error_count := s.error_count + 1 } := rfl

theorem stepEvent_dir_root (root_path : List String) (s : AnalysisState) (p : List String)
    (h : p = root_path) :
    stepEvent root_path s (Except.ok (Entry.dirE p)) = s := by
  simp [stepEvent, process_entry, h]

theorem stepEvent_dir_nonroot (root_path : List String) (s : AnalysisState) (p : List String)
    (h : p ≠ root_path) :
    stepEvent root_path s (Except.ok (Entry.dirE p))
      = { s with
          total_dirs := s.total_dirs + 1
          dir_sizes := bucketUpdate s.dir_sizes (find_immediate_subdir p root_path)
            (fun st => { st with dir_count := st.dir_count + 1 }) } := by
  simp [stepEvent, process_entry, h]

theorem stepEvent_file_seen (root_path : List String) (s : AnalysisState) (p : List String)
    (m : Metadata) (h : get_inode_key m ∈ s.seen_inodes) :
    stepEvent root_path s (Except.ok (Entry.fileE p (some m))) = s := by
  simp [stepEvent, process_entry, h]

theorem stepEvent_file_new (root_path : List String) (s : AnalysisState) (p : List String)
    (m : Metadata) (h : get_inode_key m ∉ s.seen_inodes) :
    stepEvent root_path s (Except.ok (Entry.fileE p (some m)))
      = { s with
          seen_inodes := s.seen_inodes ++ [get_inode_key m]
          total_files := s.total_files + 1
          dir_sizes := bucketUpdate s.dir_sizes (find_immediate_subdir p root_path)
            (fun st => { st with
              size := st.size + get_disk_usage m
              file_count := st.file_count + 1 }) } := by
  simp [stepEvent, process_entry, h]

theorem runFrom_spec (root_path : List String) :
    ∀ (evs : List WalkItem) (s : AnalysisState),
      (evs.foldl (stepEvent root_path) s).seen_inodes
          = s.seen_inodes ++ newKeys s.seen_inodes (fileKeys evs)
      ∧ (evs.foldl (stepEvent root_path) s).total_files
          = s.total_files + (newKeys s.seen_inodes (fileKeys evs)).length
      ∧ (evs.foldl (stepEvent root_path) s).total_dirs
          = s.total_dirs + List.countP (isDirItem root_path) evs
      ∧ (evs.foldl (stepEvent root_path) s).error_count
          = s.error_count + List.countP isErrItem evs
      ∧ sumSizes (evs.foldl (stepEvent root_path) s).dir_sizes
          = sumSizes s.dir_sizes + firstSizes s.seen_inodes (fileKeySizes evs)
      ∧ sumFileCounts (evs.foldl (stepEvent root_path) s).dir_sizes
          = sumFileCounts s.dir_sizes + (newKeys s.seen_inodes (fileKeys evs)).length := by
  intro evs
  induction evs with
  | nil =>
    intro s
    simp [fileKeys, fileKeySizes, newKeys, firstSizes]
  | cons ev evs ih =>
    intro s
    rw [List.foldl_cons]
    cases ev with
    | error u =>
      rw [stepEvent_error]
      obtain ⟨ih1, ih2, ih3, ih4, ih5, ih6⟩ := ih { s with error_count := s.error_count + 1 }
      refine ⟨?_, ?_, ?_, ?_, ?_, ?_⟩
      · simpa [fileKeys, itemKey] using ih1
      · simpa [fileKeys, itemKey] using ih2
      · simp only [List.countP_cons]
        simp [isDirItem] at ih3 ⊢
        omega
      · simp only [List.countP_cons]
        simp [isErrItem] at ih4 ⊢
        omega
      · simpa [fileKeySizes, itemKeySize] using ih5
      · simpa [fileKeys, itemKey] using ih6
    | ok e =>
      cases e with
      | fileE p metaOpt =>
        cases metaOpt with
        | none =>
          rw [stepEvent_file_meta_failed]
          obtain ⟨ih1, ih2, ih3, ih4, ih5, ih6⟩ := ih { s with error_count := s.error_count + 1 }
          refine ⟨?_, ?_, ?_, ?_, ?_, ?_⟩
          · simpa [fileKeys, itemKey] using ih1
          · simpa [fileKeys, itemKey] using ih2
          · simp only [List.countP_cons]
            simp [isDirItem] at ih3 ⊢
            omega
          · simp only [List.countP_cons]
            simp [isErrItem] at ih4 ⊢
            omega
          · simpa [fileKeySizes, itemKeySize] using ih5
          · simpa [fileKeys, itemKey] using ih6
        | some m =>
          by_cases hk : get_inode_key m ∈ s.seen_inodes
          · rw [stepEvent_file_seen root_path s p m hk]
            obtain ⟨ih1, ih2, ih3, ih4, ih5, ih6⟩ := ih s
            refine ⟨?_, ?_, ?_, ?_, ?_, ?_⟩
            · simpa [fileKeys, itemKey, newKeys, hk] using ih1
            · simpa [fileKeys, itemKey, newKeys, hk] using ih2
            · simp only [List.countP_cons]
              simp [isDirItem] at ih3 ⊢
              omega
            · simp only [List.countP_cons]
              simp [isErrItem] at ih4 ⊢
              omega
            · simpa [fileKeySizes, itemKeySize, firstSizes, hk] using ih5
            · simpa [fileKeys, itemKey, newKeys, hk] using ih6
          · rw [stepEvent_file_new root_path s p m hk]
            obtain ⟨ih1, ih2, ih3, ih4, ih5, ih6⟩ :=
              ih { s with
                    seen_inodes := s.seen_inodes ++ [get_inode_key m]
                    total_files := s.total_files + 1
                    dir_sizes := bucketUpdate s.dir_sizes (find_immediate_subdir p root_path)
                      (fun st => { st with
                        size := st.size + get_disk_usage m
                        file_count := st.file_count + 1 }) }
            have hsz := sum_g_bucketUpdate (fun st => st.size)
              (fun st => { st with
                size := st.size + get_disk_usage m
                file_count := st.file_count + 1 })
              (get_disk_usage m) rfl (fun st => rfl) s.dir_sizes
              (find_immediate_subdir p root_path)
            have hfc := sum_g_bucketUpdate (fun st => st.file_count)
              (fun st => { st with
                size := st.size + get_disk_usage m
                file_count := st.file_count + 1 })
              1 rfl (fun st => rfl) s.dir_sizes (find_immediate_subdir p root_path)
            refine ⟨?_, ?_, ?_, ?_, ?_, ?_⟩
            · simp [fileKeys, itemKey, newKeys, hk] at ih1 ⊢
              simp [ih1]
            · simp [fileKeys, itemKey, newKeys, hk] at ih2 ⊢
              omega
            · simp only [List.countP_cons]
              simp [isDirItem] at ih3 ⊢
              omega
            · simp only [List.countP_cons]
              simp [isErrItem] at ih4 ⊢
              omega
            · have hcons : fileKeySizes (Except.ok (Entry.fileE p (some m)) :: evs)
                  = (get_inode_key m, get_disk_usage m) :: fileKeySizes evs := rfl
              rw [hcons]
              have hfs : firstSizes s.seen_inodes
                    ((get_inode_key m, get_disk_usage m) :: fileKeySizes evs)
                  = get_disk_usage m
                    + firstSizes (s.seen_inodes ++ [get_inode_key m]) (fileKeySizes evs) := by
                simp [firstSizes, hk]
              rw [hfs, ih5]
              show sumSizes (bucketUpdate s.dir_sizes (find_immediate_subdir p root_path)
                    (fun st => { st with
                      size := st.size + get_disk_usage m
                      file_count := st.file_count + 1 }))
                  + firstSizes (s.seen_inodes ++ [get_inode_key m]) (fileKeySizes evs)
                = sumSizes s.dir_sizes
                  + (get_disk_usage m
                    + firstSizes (s.seen_inodes ++ [get_inode_key m]) (fileKeySizes evs))
              rw [show sumSizes (bucketUpdate s.dir_sizes (find_immediate_subdir p root_path)
                    (fun st => { st with
                      size := st.size + get_disk_usage m
                      file_count := st.file_count + 1 }))
                  = sumSizes s.dir_sizes + get_disk_usage m from hsz]
              omega
            · have hcons : fileKeys (Except.ok (Entry.fileE p (some m)) :: evs)
                  = get_inode_key m :: fileKeys evs := rfl
              rw [hcons]
              have hnew : newKeys s.seen_inodes (get_inode_key m :: fileKeys evs)
                  = get_inode_key m
                    :: newKeys (s.seen_inodes ++ [get_inode_key m]) (fileKeys evs) := by
                simp [newKeys, hk]
              rw [hnew, ih6]
              show sumFileCounts (bucketUpdate s.dir_sizes (find_immediate_subdir p root_path)
                    (fun st => { st with
                      size := st.size + get_disk_usage m
                      file_count := st.file_count + 1 }))
                  + (newKeys (s.seen_inodes ++ [get_inode_key m]) (fileKeys evs)).length
                = sumFileCounts s.dir_sizes
                  + (get_inode_key m
                    :: newKeys (s.seen_inodes ++ [get_inode_key m]) (fileKeys evs)).length
              rw [show sumFileCounts (bucketUpdate s.dir_sizes (find_immediate_subdir p root_path)
                    (fun st => { st with
                      size := st.size + get_disk_usage m
                      file_count := st.file_count + 1 }))
                  = sumFileCounts s.dir_sizes + 1 from hfc]
              simp only [List.length_cons]
              omega
      | dirE p =>
        by_cases hp : p = root_path
        · rw [stepEvent_dir_root root_path s p hp]
          obtain ⟨ih1, ih2, ih3, ih4, ih5, ih6⟩ := ih s
          refine ⟨?_, ?_, ?_, ?_, ?_, ?_⟩
          · simpa [fileKeys, itemKey] using ih1
          · simpa [fileKeys, itemKey] using ih2
          · simp only [List.countP_cons]
            simp [isDirItem, hp] at ih3 ⊢
            omega
          · simp only [List.countP_cons]
            simp [isErrItem] at ih4 ⊢
            omega
          · simpa [fileKeySizes, itemKeySize] using ih5
          · simpa [fileKeys, itemKey] using ih6
        · rw [stepEvent_dir_nonroot root_path s p hp]
          obtain ⟨ih1, ih2, ih3, ih4, ih5, ih6⟩ :=
            ih { s with
                  total_dirs := s.total_dirs + 1
                  dir_sizes := bucketUpdate s.dir_sizes (find_immediate_subdir p root_path)
                    (fun st => { st with dir_count := st.dir_count + 1 }) }
          have hsz := sum_g_bucketUpdate (fun st => st.size)
            (fun st => { st with dir_count := st.dir_count + 1 })
            0 rfl (fun st => rfl) s.dir_sizes (find_immediate_subdir p root_path)
          have hfc := sum_g_bucketUpdate (fun st => st.file_count)
            (fun st => { st with dir_count := st.dir_count + 1 })
            0 rfl (fun st => rfl) s.dir_sizes (find_immediate_subdir p root_path)
          refine ⟨?_, ?_, ?_, ?_, ?_, ?_⟩
          · simpa [fileKeys, itemKey] using ih1
          · simpa [fileKeys, itemKey] using ih2
          · simp only [List.countP_cons]
            simp [isDirItem, hp] at ih3 ⊢
            omega
          · simp only [List.countP_cons]
            simp [isErrItem] at ih4 ⊢
            omega
          · have hcons : fileKeySizes (Except.ok (Entry.dirE p) :: evs) = fileKeySizes evs := rfl
            rw [hcons, ih5]
            show sumSizes (bucketUpdate s.dir_sizes (find_immediate_subdir p root_path)
                  (fun st => { st with dir_count := st.dir_count + 1 }))
                + firstSizes s.seen_inodes (fileKeySizes evs)
              = sumSizes s.dir_sizes + firstSizes s.seen_inodes (fileKeySizes evs)
            rw [show sumSizes (bucketUpdate s.dir_sizes (find_immediate_subdir p root_path)
                  (fun st => { st with dir_count := st.dir_count + 1 }))
                = sumSizes s.dir_sizes + 0 from hsz]
            omega
          · have hcons : fileKeys (Except.ok (Entry.dirE p) :: evs) = fileKeys evs := rfl
            rw [hcons, ih6]
            show sumFileCounts (bucketUpdate s.dir_sizes (find_immediate_subdir p root_path)
                  (fun st => { st with dir_count := st.dir_count + 1 }))
                + (newKeys s.seen_inodes (fileKeys evs)).length
              = sumFileCounts s.dir_sizes + (newKeys s.seen_inodes (fileKeys evs)).length
            rw [show sumFileCounts (bucketUpdate s.dir_sizes (find_immediate_subdir p root_path)
                  (fun st => { st with dir_count := st.dir_count + 1 }))
                = sumFileCounts s.dir_sizes + 0 from hfc]
            omega

theorem runEvents_spec (root_path : List String) (evs : List WalkItem) :
    (runEvents root_path evs).total_files = (fileKeys evs).toFinset.card
    ∧ sumFileCounts (runEvents root_path evs).dir_sizes = (runEvents root_path evs).total_files
    ∧ (runEvents root_path evs).total_dirs = List.countP (isDirItem root_path) evs
    ∧ (runEvents root_path evs).error_count = List.countP isErrItem evs
    ∧ total_size_of (runEvents root_path evs) = firstSizes [] (fileKeySizes evs) := by
  obtain ⟨h1, h2, h3, h4, h5, h6⟩ := runFrom_spec root_path evs initState
  refine ⟨?_, ?_, ?_, ?_, ?_⟩
  · rw [runEvents, h2]
    simp [initState, length_newKeys_nil]
  · rw [runEvents, h6, h2]
    simp [initState, sumFileCounts]
  · rw [runEvents, h3]
    simp [initState]
  · rw [runEvents, h4]
    simp [initState]
  · rw [total_size_of, runEvents, h5]
    simp [initState, sumSizes]

theorem build_exclusion_matcher_error_iff (ps : List String) :
    (∃ e, build_exclusion_matcher ps = Except.error e)
      ↔ ∃ p, p ∈ ps ∧ Pattern.new p = none := by
  induction ps with
  | nil => simp [build_exclusion_matcher]
  | cons p ps ih =>
    cases hp : Pattern.new p with
    | none =>
      constructor
      · intro _
        exact ⟨p, List.mem_cons_self _ _, hp⟩
      · intro _
        exact ⟨AnalysisError.invalidPattern p, by simp [build_exclusion_matcher, hp]⟩
    | some pat =>
      cases hb : build_exclusion_matcher ps with
      | error e =>
        constructor
        · intro _
          obtain ⟨q, hq1, hq2⟩ := ih.mp ⟨e, hb⟩
          exact ⟨q, List.mem_cons_of_mem _ hq1, hq2⟩
        · intro _
          exact ⟨e, by simp [build_exclusion_matcher, hp, hb, Except.map]⟩
      | ok pats =>
        constructor
        · rintro ⟨e, he⟩
          simp [build_exclusion_matcher, hp, hb, Except.map] at he
        · rintro ⟨q, hq1, hq2⟩
          rcases List.mem_cons.mp hq1 with rfl | hq1
          · rw [hp] at hq2
            cases hq2
          · obtain ⟨e, he⟩ := ih.mpr ⟨q, hq1, hq2⟩
            rw [hb] at he
            cases he

theorem analyze_ok_eq (t : FSTree) (root_path : List String) (cfg : AnalysisConfig)
    (top_n : Nat) (pf : Bool) (pats : List Pattern)
    (ht : t.isDir = true)
    (hpool : (cfg.num_threads.isSome && pf) = false)
    (hex : build_exclusion_matcher cfg.exclude_patterns = Except.ok pats) :
    analyze_disk_usage (some t) root_path cfg top_n pf
      = Except.ok (resultOf t root_path pats (cfg.max_depth.getD (2 ^ 64 - 1)) top_n) := by
  simp [analyze_disk_usage, ht, hpool, hex, resultOf]

theorem analyze_ok_elim {t : FSTree} {root_path : List String} {cfg : AnalysisConfig}
    {top_n : Nat} {pf : Bool} {r : AnalysisResult}
    (h : analyze_disk_usage (some t) root_path cfg top_n pf = Except.ok r) :
    t.isDir = true
    ∧ (cfg.num_threads.isSome && pf) = false
    ∧ ∃ pats, build_exclusion_matcher cfg.exclude_patterns = Except.ok pats
        ∧ r = resultOf t root_path pats (cfg.max_depth.getD (2 ^ 64 - 1)) top_n := by
  by_cases ht : t.isDir = true
  · by_cases hpool : (cfg.num_threads.isSome && pf) = false
    · cases hex : build_exclusion_matcher cfg.exclude_patterns with
      | error e =>
        rw [analyze_disk_usage] at h
        simp [ht, hpool, hex] at h
      | ok pats =>
        rw [analyze_ok_eq t root_path cfg top_n pf pats ht hpool hex] at h
        have hr : r = resultOf t root_path pats (cfg.max_depth.getD (2 ^ 64 - 1)) top_n :=
          (Except.ok.inj h).symm
        exact ⟨ht, hpool, pats, rfl, hr⟩
    · rw [analyze_disk_usage] at h
      simp [ht] at h hpool
      simp [hpool] at h
  · rw [analyze_disk_usage] at h
    simp [ht] at h

theorem firstSizes_eq_sum (usage : Nat × Nat → Nat) :
    ∀ (l : List ((Nat × Nat) × Nat)) (seen : List (Nat × Nat)),
      (∀ p ∈ l, p.2 = usage p.1) →
      firstSizes seen l = ((newKeys seen (l.map Prod.fst)).map usage).sum := by
  intro l
  induction l with
  | nil => intro seen _; simp [firstSizes, newKeys]
  | cons p rest ih =>
    intro seen h
    by_cases hp : p.1 ∈ seen
    · simp only [firstSizes, List.map_cons, newKeys, if_pos hp]
      exact ih seen (fun q hq => h q (List.mem_cons_of_mem _ hq))
    · simp only [firstSizes, List.map_cons, newKeys, if_neg hp, List.map_cons, List.sum_cons]
      rw [ih (seen ++ [p.1]) (fun q hq => h q (List.mem_cons_of_mem _ hq))]
      have := h p (List.mem_cons_self _ _)
      omega

theorem map_fst_fileKeySizes (evs : List WalkItem) :
    (fileKeySizes evs).map Prod.fst = fileKeys evs := by
  induction evs with
  | nil => rfl
  | cons ev evs ih =>
    cases ev with
    | error u => simpa [fileKeySizes, fileKeys, itemKeySize, itemKey] using ih
    | ok e =>
      cases e with
      | dirE p => simpa [fileKeySizes, fileKeys, itemKeySize, itemKey] using ih
      | fileE p mo =>
        cases mo <;> simpa [fileKeySizes, fileKeys, itemKeySize, itemKey] using ih

theorem newKeys_perm_of_perm {ks1 ks2 : List (Nat × Nat)} (h : ks1.Perm ks2) :
    (newKeys [] ks1).Perm (newKeys [] ks2) :=
  List.perm_of_nodup_nodup_toFinset_eq (nodup_newKeys _ _) (nodup_newKeys _ _)
    (by ext x; simp [List.mem_toFinset, mem_newKeys, h.mem_iff])

theorem is_excluded_append_name (pats : List Pattern) (path : List String) (nm : String)
    (hmatch : pats.any (fun pat => pat.matches nm) = true) :
    is_excluded (path ++ [nm]) pats = true := by
  have hne : pats ≠ [] := by rintro rfl; simp at hmatch
  have hfn : fileNameOf (path ++ [nm]) = nm := by
    simp [fileNameOf, List.getLast?_concat]
  simp [is_excluded, hfn, hmatch, hne]

theorem walkTree_excluded (pats : List Pattern) (maxD : Nat) (c : FSTree)
    (path : List String) (d : Nat)
    (hmatch : pats.any (fun pat => pat.matches c.name) = true) :
    walkTree pats maxD c (path ++ [c.name]) d = [] := by
  have hx := is_excluded_append_name pats path c.name hmatch
  cases c with
  | file nm mo => simp only [walkTree]; simp [FSTree.name] at hx ⊢; simp [hx]
  | dir nm rb cs => simp only [walkTree]; simp [FSTree.name] at hx ⊢; simp [hx]

theorem walkForest_cons_excluded (pats : List Pattern) (maxD : Nat) (c : FSTree)
    (cs : FSForest) (path : List String) (d : Nat)
    (hmatch : pats.any (fun pat => pat.matches c.name) = true) :
    walkForest pats maxD (FSForest.cons c cs) path d = walkForest pats maxD cs path d := by
  rw [walkForest, walkTree_excluded pats maxD c path (d + 1) hmatch]
  rfl

/-- C1: every physical file, identified by its (device, inode) key,
contributes its disk usage and one file-count increment exactly once
during a run: a file event whose identity key is already in the seen
set is skipped with no change to any bucket or global counter; the
final `total_files` equals the number of distinct identity keys among
the delivered readable file events; and the bucket file counts sum to
that same `total_files` (each counted file landed in exactly one
bucket). -/
theorem c1_hardlink_dedup :
    (∀ (root_path path : List String) (m : Metadata) (s : AnalysisState),
        get_inode_key m ∈ s.seen_inodes →
        process_entry root_path (Entry.fileE path (some m)) s = (none, s))
    ∧ (∀ (root_path : List String) (evs : List WalkItem),
        (runEvents root_path evs).total_files = (fileKeys evs).toFinset.card
        ∧ sumFileCounts (runEvents root_path evs).dir_sizes
            = (runEvents root_path evs).total_files) := by
  constructor
  · intro root_path path m s h
    simp [process_entry, h]
  · intro root_path evs
    obtain ⟨h1, h2, _, _, _⟩ := runEvents_spec root_path evs
    exact ⟨h1, h2⟩

/-- Witness for C1: a file event whose key (1, 10) is already seen is a
no-op on the state. -/
theorem c1_hardlink_dedup_witness :
    get_inode_key ⟨1, 10, 2⟩ ∈ (AnalysisState.mk [] 0 0 [(1, 10)] 0).seen_inodes
    ∧ process_entry ["r"] (Entry.fileE ["r", "f"] (some ⟨1, 10, 2⟩))
        (AnalysisState.mk [] 0 0 [(1, 10)] 0)
        = (none, AnalysisState.mk [] 0 0 [(1, 10)] 0) :=
  ⟨by decide, c1_hardlink_dedup.1 ["r"] ["r", "f"] ⟨1, 10, 2⟩
    (AnalysisState.mk [] 0 0 [(1, 10)] 0) (by decide)⟩

/-- C9: `process_entry` fails exactly when the entry is a file whose
metadata read fails, and a failing call leaves the bucket map, the
seen-inode set and the global counters exactly as they were: the sole
failure point precedes every state mutation. -/
theorem c9_process_entry_atomic :
    ∀ (root_path : List String) (e : Entry) (s : AnalysisState),
      ((process_entry root_path e s).1.isSome = true ↔ ∃ p, e = Entry.fileE p none)
      ∧ ((process_entry root_path e s).1.isSome = true → (process_entry root_path e s).2 = s) := by
  intro root_path e s
  cases e with
  | fileE p mo =>
    cases mo with
    | none =>
      refine ⟨⟨fun _ => ⟨p, rfl⟩, fun _ => by simp [process_entry]⟩, fun _ => rfl⟩
    | some m =>
      by_cases hk : get_inode_key m ∈ s.seen_inodes <;>
        simp [process_entry, hk]
  | dirE p =>
    by_cases hp : p = root_path <;> simp [process_entry, hp]

/-- Witness for C9: a concrete failing call returns the state untouched. -/
theorem c9_witness :
    (process_entry ["r"] (Entry.fileE ["r", "f"] none) initState).1.isSome = true
    ∧ (process_entry ["r"] (Entry.fileE ["r", "f"] none) initState).2 = initState :=
  ⟨by decide,
   (c9_process_entry_atomic ["r"] (Entry.fileE ["r", "f"] none) initState).2 (by decide)⟩

/-- C4 counterexample: for a file lying directly in the root directory
`["r"]`, the computed bucket key is the file's own path
`["r", "f.txt"]`, not the root, and the end-to-end analysis of a root
containing only that file produces a bucket keyed by the file's path. -/
theorem c4_counterexample :
    find_immediate_subdir ["r", "f.txt"] ["r"] = ["r", "f.txt"]
    ∧ find_immediate_subdir ["r", "f.txt"] ["r"] ≠ ["r"]
    ∧ topOf (analyze_disk_usage
        (some (FSTree.dir "r" true (FSForest.ofList [FSTree.file "f.txt" (some ⟨1, 10, 2⟩)])))
        ["r"] ⟨none, [], false, none⟩ 10 false)
      = [⟨["r", "f.txt"], 1024, 1, 0⟩] :=
  ⟨by decide, by decide, by decide⟩

/-- C4 amended: the bucket key is the root joined with the first path
component beneath the root whenever the entry lies strictly below the
root — in particular a file directly inside the root gets a bucket of
its own, keyed by its own path — the root maps to itself, and a path
not under the root maps to itself. -/
theorem c4_bucket_key :
    (∀ (root rel : List String),
        find_immediate_subdir (root ++ rel) root
          = match rel with
            | [] => root
            | first :: _ => root ++ [first])
    ∧ (∀ (path root : List String),
        root.isPrefixOf path = false → find_immediate_subdir path root = path)
    ∧ (∀ (root : List String) (f : String),
        find_immediate_subdir (root ++ [f]) root = root ++ [f] ∧ root ++ [f] ≠ root) := by
  have hmain : ∀ (root rel : List String),
      find_immediate_subdir (root ++ rel) root
        = match rel with
          | [] => root
          | first :: _ => root ++ [first] := by
    intro root rel
    have hpre : root.isPrefixOf (root ++ rel) = true :=
      Iff.mpr List.isPrefixOf_iff_prefix (List.prefix_append root rel)
    cases rel with
    | nil => simp [find_immediate_subdir, hpre, List.drop_left]
    | cons first rest => simp [find_immediate_subdir, hpre, List.drop_left]
  refine ⟨hmain, ?_, ?_⟩
  · intro path root h
    simp [find_immediate_subdir, h]
  · intro root f
    refine ⟨hmain root [f], fun h => ?_⟩
    have := congrArg List.length h
    simp at this

/-- Witness for C4: a path not under the root is its own bucket key. -/
theorem c4_witness :
    (["x"] : List String).isPrefixOf ["y", "z"] = false
    ∧ find_immediate_subdir ["y", "z"] ["x"] = ["y", "z"] :=
  ⟨by decide, c4_bucket_key.2.1 ["y", "z"] ["x"] (by decide)⟩

/-- C5 counterexample: with `max_depth = 0` the walker yields only the
root entry itself, so a root containing one file directly beneath it
reports zero files — not the one file the claim expects. -/
theorem c5_counterexample :
    analyze_disk_usage
        (some (FSTree.dir "r" true (FSForest.ofList [FSTree.file "f.txt" (some ⟨1, 10, 2⟩)])))
        ["r"] ⟨some 0, [], false, none⟩ 10 false
      = Except.ok ⟨["r"], 0, 0, 0, []⟩ := by
  decide

/-- C5 amended: with `max_depth = 0` the analysis counts nothing at
all: only the root entry is yielded, which is not counted, so every
total is zero and no bucket exists. -/
theorem c5_depth_zero
    (t : FSTree) (root_path : List String) (cfg : AnalysisConfig) (pf : Bool)
    (n : Nat) (r : AnalysisResult)
    (hd : cfg.max_depth = some 0)
    (h : analyze_disk_usage (some t) root_path cfg n pf = Except.ok r) :
    r.total_size = 0 ∧ r.total_files = 0 ∧ r.total_dirs = 0 ∧ r.top_directories = [] := by
  obtain ⟨ht, hpool, pats, hex, hr⟩ := analyze_ok_elim h
  subst hr
  rw [hd]
  cases t with
  | file nm mo => simp [FSTree.isDir] at ht
  | dir nm rb cs =>
    by_cases hx : is_excluded root_path pats
    · simp [resultOf, analysisState, walkTree, hx, runEvents, initState, total_size_of,
        sumSizes, directoriesOf, sortDirectories, List.insertionSort]
    · simp [resultOf, analysisState, walkTree, hx, runEvents, initState, stepEvent,
        process_entry, total_size_of, sumSizes, directoriesOf, sortDirectories,
        List.insertionSort]

/-- Witness for C5 amended: a concrete depth-0 run whose result is all
zeroes. -/
theorem c5_witness :
    (AnalysisConfig.mk (some 0) [] false none).max_depth = some 0
    ∧ ((AnalysisResult.mk ["r"] 0 0 0 []).total_size = 0
       ∧ (AnalysisResult.mk ["r"] 0 0 0 []).total_files = 0
       ∧ (AnalysisResult.mk ["r"] 0 0 0 []).total_dirs = 0
       ∧ (AnalysisResult.mk ["r"] 0 0 0 []).top_directories = []) :=
  ⟨rfl,
   c5_depth_zero (FSTree.dir "r" true FSForest.nil) ["r"]
     (AnalysisConfig.mk (some 0) [] false none) false 5 (AnalysisResult.mk ["r"] 0 0 0 [])
     rfl (by decide)⟩

/-- C2: `total_size` equals the sum of the sizes of all buckets —
including buckets outside the returned top-N list — and the requested
N influences only `top_directories` (a prefix of the full sorted bucket
list), never `total_size`, `total_files` or `total_dirs`. -/
theorem c2_totals_over_all_buckets
    (t : FSTree) (root_path : List String) (cfg : AnalysisConfig) (pf : Bool)
    (n1 n2 : Nat) (r1 r2 : AnalysisResult) (pats : List Pattern)
    (hex : build_exclusion_matcher cfg.exclude_patterns = Except.ok pats)
    (h1 : analyze_disk_usage (some t) root_path cfg n1 pf = Except.ok r1)
    (h2 : analyze_disk_usage (some t) root_path cfg n2 pf = Except.ok r2) :
    r1.total_size
        = ((directoriesOf (analysisState t root_path pats (cfg.max_depth.getD (2 ^ 64 - 1)))).map
            DirectoryEntry.size).sum
    ∧ r1.total_size = r2.total_size
    ∧ r1.total_files = r2.total_files
    ∧ r1.total_dirs = r2.total_dirs
    ∧ r1.top_directories
        = (sortDirectories (directoriesOf (analysisState t root_path pats
            (cfg.max_depth.getD (2 ^ 64 - 1))))).take n1 := by
  obtain ⟨ht, hpool, pats1, hex1, hr1⟩ := analyze_ok_elim h1
  obtain ⟨_, _, pats2, hex2, hr2⟩ := analyze_ok_elim h2
  have hp1 : pats1 = pats := Except.ok.inj (hex1.symm.trans hex)
  have hp2 : pats2 = pats := Except.ok.inj (hex2.symm.trans hex)
  rw [hp1] at hr1
  rw [hp2] at hr2
  subst hr1
  subst hr2
  refine ⟨?_, rfl, rfl, rfl, rfl⟩
  simp [resultOf, total_size_of, sumSizes, directoriesOf, List.map_map, Function.comp_def]

/-- Witness for C2 at a concrete two-bucket tree analysed with N = 1
and N = 10. -/
theorem c2_witness :
    build_exclusion_matcher ([] : List String) = Except.ok []
    ∧ (AnalysisResult.mk ["r"] 3072 2 2
        [DirectoryEntry.mk ["r", "b"] 2048 1 1]).total_size
      = ((directoriesOf (analysisState
          (FSTree.dir "r" true (FSForest.ofList
            [FSTree.dir "a" true (FSForest.ofList [FSTree.file "f1" (some ⟨1, 10, 2⟩)]),
             FSTree.dir "b" true (FSForest.ofList [FSTree.file "f2" (some ⟨1, 11, 4⟩)])]))
          ["r"] [] ((2 : Nat) ^ 64 - 1))).map DirectoryEntry.size).sum := by
  refine ⟨by decide, ?_⟩
  exact (c2_totals_over_all_buckets
    (FSTree.dir "r" true (FSForest.ofList
      [FSTree.dir "a" true (FSForest.ofList [FSTree.file "f1" (some ⟨1, 10, 2⟩)]),
       FSTree.dir "b" true (FSForest.ofList [FSTree.file "f2" (some ⟨1, 11, 4⟩)])]))
    ["r"] (AnalysisConfig.mk none [] false none) false 1 10
    (AnalysisResult.mk ["r"] 3072 2 2 [DirectoryEntry.mk ["r", "b"] 2048 1 1])
    (AnalysisResult.mk ["r"] 3072 2 2
      [DirectoryEntry.mk ["r", "b"] 2048 1 1, DirectoryEntry.mk ["r", "a"] 1024 1 1])
    [] (by decide) (by decide) (by decide)).1

/-- C3 counterexample: a tree whose two buckets tie at 1024 bytes
yields a reported list with sizes `[1024, 1024]`, which is not strictly
descending. -/
theorem c3_counterexample :
    (topOf (analyze_disk_usage
        (some (FSTree.dir "r" true (FSForest.ofList
          [FSTree.dir "a" true (FSForest.ofList [FSTree.file "f1" (some ⟨1, 10, 2⟩)]),
           FSTree.dir "b" true (FSForest.ofList [FSTree.file "f2" (some ⟨1, 11, 2⟩)])])))
        ["r"] ⟨none, [], false, none⟩ 10 false)).map DirectoryEntry.size = [1024, 1024]
    ∧ ¬ List.Pairwise (fun a b : DirectoryEntry => b.size < a.size)
        (topOf (analyze_disk_usage
          (some (FSTree.dir "r" true (FSForest.ofList
            [FSTree.dir "a" true (FSForest.ofList [FSTree.file "f1" (some ⟨1, 10, 2⟩)]),
             FSTree.dir "b" true (FSForest.ofList [FSTree.file "f2" (some ⟨1, 11, 2⟩)])])))
          ["r"] ⟨none, [], false, none⟩ 10 false)) :=
  ⟨by decide, by decide⟩

/-- C3 amended: the reported list has length at most min(N, number of
buckets), is sorted in weakly descending size order (equal sizes may be
adjacent; their relative order follows the bucket enumeration order),
and when N is at least the bucket count the list is a permutation of
(contains exactly) all buckets. -/
theorem c3_top_list_shape
    (t : FSTree) (root_path : List String) (cfg : AnalysisConfig) (pf : Bool)
    (n : Nat) (r : AnalysisResult) (pats : List Pattern)
    (hex : build_exclusion_matcher cfg.exclude_patterns = Except.ok pats)
    (h : analyze_disk_usage (some t) root_path cfg n pf = Except.ok r) :
    r.top_directories.length
        ≤ min n (directoriesOf (analysisState t root_path pats
            (cfg.max_depth.getD (2 ^ 64 - 1)))).length
    ∧ List.Pairwise (fun a b : DirectoryEntry => b.size ≤ a.size) r.top_directories
    ∧ ((directoriesOf (analysisState t root_path pats (cfg.max_depth.getD (2 ^ 64 - 1)))).length
          ≤ n →
        r.top_directories.Perm
          (directoriesOf (analysisState t root_path pats (cfg.max_depth.getD (2 ^ 64 - 1))))) := by
  obtain ⟨ht, hpool, pats1, hex1, hr⟩ := analyze_ok_elim h
  have hp1 : pats1 = pats := Except.ok.inj (hex1.symm.trans hex)
  rw [hp1] at hr
  subst hr
  refine ⟨?_, ?_, ?_⟩
  · simp [resultOf, sortDirectories, List.length_take, List.length_insertionSort]
  · have hs : List.Pairwise sizeDescRel
        (sortDirectories (directoriesOf (analysisState t root_path pats
          (cfg.max_depth.getD (2 ^ 64 - 1))))) :=
      List.sorted_insertionSort sizeDescRel _
    exact List.Pairwise.sublist (List.take_sublist _ _) hs
  · intro hlen
    have hlen2 : (sortDirectories (directoriesOf (analysisState t root_path pats
        (cfg.max_depth.getD (2 ^ 64 - 1))))).length
        ≤ n := by
      rw [sortDirectories, List.length_insertionSort]
      exact hlen
    show ((sortDirectories (directoriesOf (analysisState t root_path pats
        (cfg.max_depth.getD (2 ^ 64 - 1))))).take n).Perm _
    rw [List.take_of_length_le hlen2]
    exact List.perm_insertionSort sizeDescRel _

/-- Witness for C3 amended at a concrete two-bucket tree with N = 10. -/
theorem c3_witness :
    build_exclusion_matcher ([] : List String) = Except.ok []
    ∧ List.Pairwise (fun a b : DirectoryEntry => b.size ≤ a.size)
        (AnalysisResult.mk ["r"] 3072 2 2
          [DirectoryEntry.mk ["r", "b"] 2048 1 1,
           DirectoryEntry.mk ["r", "a"] 1024 1 1]).top_directories :=
  ⟨by decide,
   (c3_top_list_shape
     (FSTree.dir "r" true (FSForest.ofList
       [FSTree.dir "a" true (FSForest.ofList [FSTree.file "f1" (some ⟨1, 10, 2⟩)]),
        FSTree.dir "b" true (FSForest.ofList [FSTree.file "f2" (some ⟨1, 11, 4⟩)])]))
     ["r"] (AnalysisConfig.mk none [] false none) false 10
     (AnalysisResult.mk ["r"] 3072 2 2
       [DirectoryEntry.mk ["r", "b"] 2048 1 1, DirectoryEntry.mk ["r", "a"] 1024 1 1])
     [] (by decide) (by decide)).2.1⟩

/-- C10: when the root directory's own final name component matches an
exclusion pattern, the filter applies to the root entry itself, the
walk yields nothing, and the analysis returns the all-zero result with
an empty ranking instead of analysing the tree. -/
theorem c10_root_name_excluded
    (t : FSTree) (root_path : List String) (cfg : AnalysisConfig) (n : Nat) (pf : Bool)
    (pats : List Pattern)
    (ht : t.isDir = true)
    (hpool : (cfg.num_threads.isSome && pf) = false)
    (hex : build_exclusion_matcher cfg.exclude_patterns = Except.ok pats)
    (hmatch : pats.any (fun pat => pat.matches (fileNameOf root_path)) = true) :
    analyze_disk_usage (some t) root_path cfg n pf = Except.ok ⟨root_path, 0, 0, 0, []⟩ := by
  rw [analyze_ok_eq t root_path cfg n pf pats ht hpool hex]
  have hne : pats ≠ [] := by rintro rfl; simp at hmatch
  have hx : is_excluded root_path pats = true := by
    simp [is_excluded, hmatch, hne]
  cases t with
  | file nm mo => simp [FSTree.isDir] at ht
  | dir nm rb cs =>
    simp [resultOf, analysisState, walkTree, hx, runEvents, initState, total_size_of,
      sumSizes, directoriesOf, sortDirectories, List.insertionSort]

/-- Witness for C10: excluding the literal name `r` empties the
analysis of a root named `r`. -/
theorem c10_witness :
    (FSTree.dir "r" true (FSForest.ofList [FSTree.file "f" (some ⟨1, 10, 2⟩)])).isDir = true
    ∧ build_exclusion_matcher ["r"] = Except.ok [[GlobTok.lit 'r']]
    ∧ analyze_disk_usage
        (some (FSTree.dir "r" true (FSForest.ofList [FSTree.file "f" (some ⟨1, 10, 2⟩)])))
        ["r"] (AnalysisConfig.mk none ["r"] false none) 10 false
      = Except.ok ⟨["r"], 0, 0, 0, []⟩ :=
  ⟨by decide, by decide,
   c10_root_name_excluded
     (FSTree.dir "r" true (FSForest.ofList [FSTree.file "f" (some ⟨1, 10, 2⟩)]))
     ["r"] (AnalysisConfig.mk none ["r"] false none) 10 false [[GlobTok.lit 'r']]
     (by decide) (by decide) (by decide) (by decide)⟩

/-- C6 counterexample: the same tree discovered in two different child
orders (two hard-link paths of one physical file living in different
buckets) produces identical totals but different `top_directories`
lists — the result is not independent of discovery order. -/
theorem c6_counterexample :
    analyze_disk_usage
        (some (FSTree.dir "r" true (FSForest.ofList
          [FSTree.dir "a" true (FSForest.ofList [FSTree.file "f1" (some ⟨1, 99, 2⟩)]),
           FSTree.dir "b" true (FSForest.ofList [FSTree.file "f2" (some ⟨1, 99, 2⟩)])])))
        ["r"] ⟨none, [], false, none⟩ 10 false
      = Except.ok ⟨["r"], 1024, 1, 2,
          [⟨["r", "a"], 1024, 1, 1⟩, ⟨["r", "b"], 0, 0, 1⟩]⟩
    ∧ analyze_disk_usage
        (some (FSTree.dir "r" true (FSForest.ofList
          [FSTree.dir "b" true (FSForest.ofList [FSTree.file "f2" (some ⟨1, 99, 2⟩)]),
           FSTree.dir "a" true (FSForest.ofList [FSTree.file "f1" (some ⟨1, 99, 2⟩)])])))
        ["r"] ⟨none, [], false, none⟩ 10 false
      = Except.ok ⟨["r"], 1024, 1, 2,
          [⟨["r", "b"], 1024, 1, 1⟩, ⟨["r", "a"], 0, 0, 1⟩]⟩
    ∧ topOf (analyze_disk_usage
        (some (FSTree.dir "r" true (FSForest.ofList
          [FSTree.dir "a" true (FSForest.ofList [FSTree.file "f1" (some ⟨1, 99, 2⟩)]),
           FSTree.dir "b" true (FSForest.ofList [FSTree.file "f2" (some ⟨1, 99, 2⟩)])])))
        ["r"] ⟨none, [], false, none⟩ 10 false)
      ≠ topOf (analyze_disk_usage
        (some (FSTree.dir "r" true (FSForest.ofList
          [FSTree.dir "b" true (FSForest.ofList [FSTree.file "f2" (some ⟨1, 99, 2⟩)]),
           FSTree.dir "a" true (FSForest.ofList [FSTree.file "f1" (some ⟨1, 99, 2⟩)])])))
        ["r"] ⟨none, [], false, none⟩ 10 false) :=
  ⟨by decide, by decide, by decide⟩

/-- C6 amended: only the global totals are reproducible.  First, the
totals (`total_size`, `total_files`, `total_dirs`) and the error count
are invariant under any permutation of the discovery order of the
event stream, provided disk usage is a function of the identity key
(which holds for hard links, whose paths share one metadata record).
Second, `total_size` is also invariant under any permutation of the
bucket-map enumeration order, so it does not depend on the hash map's
unspecified per-run iteration order.  The `top_directories` list has
no such guarantee: beyond the discovery-order dependence shown by the
counterexample, the stable sort preserves the relative order of
equal-sized buckets, so on a tie the reported order follows whatever
enumeration order the map happens to produce — two enumerations of
the same buckets yield different lists. -/
theorem c6_totals_order_independent :
    (∀ (root_path : List String) (evs1 evs2 : List WalkItem) (usage : Nat × Nat → Nat),
        evs1.Perm evs2 →
        (∀ p ∈ fileKeySizes evs1, p.2 = usage p.1) →
        total_size_of (runEvents root_path evs1) = total_size_of (runEvents root_path evs2)
        ∧ (runEvents root_path evs1).total_files = (runEvents root_path evs2).total_files
        ∧ (runEvents root_path evs1).total_dirs = (runEvents root_path evs2).total_dirs
        ∧ (runEvents root_path evs1).error_count = (runEvents root_path evs2).error_count)
    ∧ (∀ (s1 s2 : AnalysisState),
        s1.dir_sizes.Perm s2.dir_sizes → total_size_of s1 = total_size_of s2)
    ∧ (([(⟨["r", "a"], 5, 0, 0⟩ : DirectoryEntry), ⟨["r", "b"], 5, 0, 0⟩]).Perm
          [(⟨["r", "b"], 5, 0, 0⟩ : DirectoryEntry), ⟨["r", "a"], 5, 0, 0⟩]
       ∧ sortDirectories [⟨["r", "a"], 5, 0, 0⟩, ⟨["r", "b"], 5, 0, 0⟩]
          ≠ sortDirectories [⟨["r", "b"], 5, 0, 0⟩, ⟨["r", "a"], 5, 0, 0⟩]) := by
  refine ⟨?_, ?_, by decide, by decide⟩
  · intro root_path evs1 evs2 usage hperm hcons
    obtain ⟨f1, _, d1, e1, s1⟩ := runEvents_spec root_path evs1
    obtain ⟨f2, _, d2, e2, s2⟩ := runEvents_spec root_path evs2
    have hks : (fileKeySizes evs1).Perm (fileKeySizes evs2) := hperm.filterMap _
    have hkeys : (fileKeys evs1).Perm (fileKeys evs2) := hperm.filterMap _
    have hcons2 : ∀ p ∈ fileKeySizes evs2, p.2 = usage p.1 :=
      fun p hp => hcons p (hks.mem_iff.mpr hp)
    refine ⟨?_, ?_, ?_, ?_⟩
    · rw [s1, s2, firstSizes_eq_sum usage _ _ hcons, firstSizes_eq_sum usage _ _ hcons2,
        map_fst_fileKeySizes, map_fst_fileKeySizes]
      exact ((newKeys_perm_of_perm hkeys).map usage).sum_eq
    · rw [f1, f2]
      congr 1
      ext x
      simp [List.mem_toFinset, hkeys.mem_iff]
    · rw [d1, d2]
      exact hperm.countP_eq _
    · rw [e1, e2]
      exact hperm.countP_eq _
  · intro s1 s2 hperm
    exact (hperm.map _).sum_eq

/-- Witness for C6 amended: two permuted event streams with equal
totals, and two permuted bucket enumerations with equal `total_size`. -/
theorem c6_witness :
    ([Except.ok (Entry.dirE ["r", "a"]), Except.error ()] : List WalkItem).Perm
        [Except.error (), Except.ok (Entry.dirE ["r", "a"])]
    ∧ total_size_of (runEvents ["r"] [Except.ok (Entry.dirE ["r", "a"]), Except.error ()])
        = total_size_of (runEvents ["r"] [Except.error (), Except.ok (Entry.dirE ["r", "a"])])
    ∧ total_size_of (AnalysisState.mk [(["r", "a"], ⟨5, 1, 0⟩), (["r", "b"], ⟨7, 1, 0⟩)] 2 0 [] 0)
        = total_size_of (AnalysisState.mk [(["r", "b"], ⟨7, 1, 0⟩), (["r", "a"], ⟨5, 1, 0⟩)] 2 0 [] 0) :=
  ⟨by decide,
   (c6_totals_order_independent.1 ["r"]
     [Except.ok (Entry.dirE ["r", "a"]), Except.error ()]
     [Except.error (), Except.ok (Entry.dirE ["r", "a"])]
     (fun _ => 0) (by decide) (by decide)).1,
   c6_totals_order_independent.2.1
     (AnalysisState.mk [(["r", "a"], ⟨5, 1, 0⟩), (["r", "b"], ⟨7, 1, 0⟩)] 2 0 [] 0)
     (AnalysisState.mk [(["r", "b"], ⟨7, 1, 0⟩), (["r", "a"], ⟨5, 1, 0⟩)] 2 0 [] 0)
     (by decide)⟩

/-- C7: `analyze_disk_usage` returns an error exactly when a
precondition fails — the root path does not exist, the root is not a
directory, the thread pool configuration fails (only attempted when a
thread count is set), or an exclude pattern has invalid glob syntax —
and a per-entry failure never produces an error: a walker error item or
a failing metadata read only increments the error counter, leaving the
walk to continue to a normal result. -/
theorem c7_error_policy :
    (∀ (fs : Option FSTree) (root_path : List String) (cfg : AnalysisConfig)
        (top_n : Nat) (pf : Bool),
        (∃ e, analyze_disk_usage fs root_path cfg top_n pf = Except.error e)
          ↔ (fs = none
             ∨ (∃ t, fs = some t ∧ t.isDir = false)
             ∨ (cfg.num_threads.isSome = true ∧ pf = true)
             ∨ (∃ p, p ∈ cfg.exclude_patterns ∧ Pattern.new p = none)))
    ∧ (∀ (root_path path : List String) (s : AnalysisState) (u : Unit),
        stepEvent root_path s (Except.error u) = { s with error_count := s.error_count + 1 }
        ∧ stepEvent root_path s (Except.ok (Entry.fileE path none))
            = { s with error_count := s.error_count + 1 }) := by
  constructor
  · intro fs root_path cfg top_n pf
    cases fs with
    | none => simp [analyze_disk_usage]
    | some t =>
      by_cases ht : t.isDir = true
      · by_cases hpool : cfg.num_threads.isSome = true ∧ pf = true
        · have hb : (cfg.num_threads.isSome && pf) = true := by
            simp [hpool.1, hpool.2]
          constructor
          · intro _
            exact Or.inr (Or.inr (Or.inl hpool))
          · intro _
            exact ⟨AnalysisError.threadPoolConfig, by simp [analyze_disk_usage, ht, hb]⟩
        · have hb : (cfg.num_threads.isSome && pf) = false := by
            cases hn : cfg.num_threads.isSome <;> cases hpf : pf <;> simp_all
          cases hex : build_exclusion_matcher cfg.exclude_patterns with
          | error e =>
            constructor
            · intro _
              exact Or.inr (Or.inr (Or.inr
                ((build_exclusion_matcher_error_iff _).mp ⟨e, hex⟩)))
            · intro _
              exact ⟨e, by simp [analyze_disk_usage, ht, hb, hex]⟩
          | ok pats =>
            rw [analyze_ok_eq t root_path cfg top_n pf pats ht hb hex]
            constructor
            · rintro ⟨e, he⟩
              cases he
            · rintro (hno | ⟨t2, ht2, hdir⟩ | hp | hinv)
              · cases hno
              · obtain rfl : t2 = t := (Option.some.inj ht2).symm
                simp [ht] at hdir
              · exact absurd hp hpool
              · obtain ⟨e, he⟩ := (build_exclusion_matcher_error_iff _).mpr hinv
                rw [hex] at he
                cases he
      · have ht2 : t.isDir = false := by
          revert ht
          cases t.isDir <;> simp
        constructor
        · intro _
          exact Or.inr (Or.inl ⟨t, rfl, ht2⟩)
        · intro _
          exact ⟨AnalysisError.notADirectory, by simp [analyze_disk_usage, ht2]⟩
  · intro root_path path s u
    exact ⟨rfl, rfl⟩

/-- C8: exclusion matching depends only on the final path component
(paths with equal final components are treated identically); with an
empty pattern list nothing is excluded; and a subtree whose root name
matches a pattern yields no walk events at all — removing it from its
parent's child list leaves the entire analysis, and hence every sibling
bucket and every count, unchanged. -/
theorem c8_exclusion :
    (∀ (pats : List Pattern) (p1 p2 : List String),
        fileNameOf p1 = fileNameOf p2 → is_excluded p1 pats = is_excluded p2 pats)
    ∧ (∀ p : List String, is_excluded p ([] : List Pattern) = false)
    ∧ (∀ (pats : List Pattern) (maxD : Nat) (c : FSTree) (path : List String) (d : Nat),
        pats.any (fun pat => pat.matches c.name) = true →
        walkTree pats maxD c (path ++ [c.name]) d = [])
    ∧ (∀ (pats : List Pattern) (maxD : Nat) (c : FSTree) (cs : FSForest)
         (path : List String) (d : Nat),
        pats.any (fun pat => pat.matches c.name) = true →
        walkForest pats maxD (FSForest.cons c cs) path d = walkForest pats maxD cs path d)
    ∧ (∀ (cfg : AnalysisConfig) (pats : List Pattern) (rn : String) (rb : Bool)
         (c : FSTree) (rest : FSForest) (root_path : List String) (n : Nat) (pf : Bool),
        build_exclusion_matcher cfg.exclude_patterns = Except.ok pats →
        pats.any (fun pat => pat.matches c.name) = true →
        analyze_disk_usage (some (FSTree.dir rn rb (FSForest.cons c rest))) root_path cfg n pf
          = analyze_disk_usage (some (FSTree.dir rn rb rest)) root_path cfg n pf) := by
  refine ⟨?_, ?_, walkTree_excluded, walkForest_cons_excluded, ?_⟩
  · intro pats p1 p2 h
    simp [is_excluded, h]
  · intro p
    simp [is_excluded]
  · intro cfg pats rn rb c rest root_path n pf hex hmatch
    by_cases hb : (cfg.num_threads.isSome && pf) = false
    · rw [analyze_ok_eq (FSTree.dir rn rb (FSForest.cons c rest)) root_path cfg n pf pats
          rfl hb hex,
        analyze_ok_eq (FSTree.dir rn rb rest) root_path cfg n pf pats rfl hb hex]
      have hw : walkTree pats (cfg.max_depth.getD (2 ^ 64 - 1))
            (FSTree.dir rn rb (FSForest.cons c rest)) root_path 0
          = walkTree pats (cfg.max_depth.getD (2 ^ 64 - 1))
            (FSTree.dir rn rb rest) root_path 0 := by
        simp only [walkTree]
        rw [walkForest_cons_excluded pats (cfg.max_depth.getD (2 ^ 64 - 1)) c rest
          root_path 0 hmatch]
      simp only [resultOf, analysisState, hw]
    · have hb2 : (cfg.num_threads.isSome && pf) = true := by
        revert hb
        cases cfg.num_threads.isSome <;> cases pf <;> simp
      simp [analyze_disk_usage, FSTree.isDir, hb2]

/-- Witness for C8: excluding the name `b` makes a `b` subtree vanish
from the analysis while leaving the rest identical. -/
theorem c8_witness :
    build_exclusion_matcher ["b"] = Except.ok [[GlobTok.lit 'b']]
    ∧ ([[GlobTok.lit 'b']] : List Pattern).any
        (fun pat => pat.matches (FSTree.dir "b" true FSForest.nil).name) = true
    ∧ analyze_disk_usage
        (some (FSTree.dir "r" true
          (FSForest.cons (FSTree.dir "b" true FSForest.nil) FSForest.nil)))
        ["r"] (AnalysisConfig.mk none ["b"] false none) 10 false
      = analyze_disk_usage (some (FSTree.dir "r" true FSForest.nil))
        ["r"] (AnalysisConfig.mk none ["b"] false none) 10 false :=
  ⟨by decide, by decide,
   c8_exclusion.2.2.2.2 (AnalysisConfig.mk none ["b"] false none) [[GlobTok.lit 'b']]
     "r" true (FSTree.dir "b" true FSForest.nil) FSForest.nil ["r"] 10 false
     (by decide) (by decide)⟩
